import Mathlib

/-!
Shallow embedding of the `sysinfo` CPU and network inventory code.

The CPU side models `getCPUInfo` (file `cpu.go`): it scans a record stream
(the lines of `/proc/cpuinfo`), splitting each line at the first match of
the regular expression `\t+: ` (one or more tabs followed by a colon and a
space, limit 2 fields), and accumulates CPU facts.  External effects are
parameters: the host's reported logical CPU count (`runtime.NumCPU`), the
node hostname and hypervisor strings, the float parser used for the
`cpu MHz` field (`strconv.ParseFloat` composed with Go's `uint` conversion,
abstracted as a total function since no claim depends on its value), and
the file contents (`none` models an `os.Open` failure; the `Bool` models a
scanner error reported at end of stream).

Accessing the second split field of a line that produced only one field is
Go's index-out-of-range panic; the scan therefore returns `Option`, with
`none` modelling a panic.

The network side models `getNetworkInfo` and its helpers, with the
directory listing, readlink outcomes, socket/ioctl outcomes, interface
address lookup, and sysfs file reads supplied by an environment record.
-/

namespace Sysinfo

/-- One or more tabs, then `": "`: consume the tabs of the run starting at
the head (the caller ensures the head is a tab) and require `": "` right
after, returning the remainder.  This is the greedy match of `\t+: `
anchored at the head position. -/
def sepRest : List Char → Option (List Char)
  | '\t' :: r => sepRest r
  | ':' :: ' ' :: r => some r
  | _ => none

/-- Scan for the leftmost match of `\t+: `; return the text before the
match (reversed accumulator) and, when found, the text after it. -/
def splitAux : List Char → List Char → List Char × Option (List Char)
  | acc, [] => (acc.reverse, none)
  | acc, c :: r =>
    if c = '\t' then
      match sepRest (c :: r) with
      | some rest => (acc.reverse, some rest)
      | none => splitAux (c :: acc) r
    else splitAux (c :: acc) r

/-- `reTwoColumns.Split(line, 2)`: split at the first match of `\t+: `.
A pair `(before, some after)` models the two-element slice; `(line, none)`
models the one-element slice returned when there is no match. -/
def splitTwo (s : String) : String × Option String :=
  match splitAux [] s.data with
  | (before, some after) => (String.mk before, some (String.mk after))
  | (before, none) => (String.mk before, none)

/-- `reExtraSpace.ReplaceAllLiteralString(s, " ")` with `reExtraSpace`
matching `" +"`: every maximal run of spaces becomes a single space. -/
def collapseSpaces : List Char → List Char
  | ' ' :: ' ' :: r => collapseSpaces (' ' :: r)
  | c :: r => c :: collapseSpaces r
  | [] => []
  termination_by l => l.length

/-- `strings.Replace(s, "- ", "-", 1)`: replace the first occurrence of
`"- "` by `"-"`, leaving the rest of the string untouched. -/
def replaceDashSpace : List Char → List Char
  | '-' :: ' ' :: r => '-' :: r
  | c :: r => c :: replaceDashSpace r
  | [] => []

/-- Decimal value of a digit list (the accumulation both `strconv.ParseInt`
and `strconv.ParseUint` perform on a digit-only numeral). -/
def natOfDigits (l : List Char) : Nat :=
  l.foldl (fun acc c => acc * 10 + (c.toNat - '0'.toNat)) 0

/-- Nonempty all-digit numeral, or `none`. -/
def digitsVal (l : List Char) : Option Nat :=
  if l ≠ [] ∧ l.all (fun c => c.isDigit) then some (natOfDigits l) else none

/-- `strconv.ParseInt(s, 10, 8)`: optional sign, nonempty digits, value
within the signed 8-bit range; `none` models a returned error. -/
def parseInt8 (s : String) : Option Int :=
  match s.data with
  | '+' :: ds => (digitsVal ds).bind fun n => if n ≤ 127 then some (n : Int) else none
  | '-' :: ds => (digitsVal ds).bind fun n => if n ≤ 128 then some (-(n : Int)) else none
  | ds => (digitsVal ds).bind fun n => if n ≤ 127 then some (n : Int) else none

/-- `reCacheSize.FindStringSubmatch` for `^(\d+) KB$` followed by
`strconv.ParseUint(m[1], 10, 64)`: the anchored pattern forces the value
to be a nonempty digit run followed by exactly `" KB"`; the parse fails
only when the digit value overflows 64 bits. -/
def parseCacheSize (v : String) : Option Nat :=
  if v.data.takeWhile (fun c => c.isDigit) ≠ [] ∧
      v.data.dropWhile (fun c => c.isDigit) = (" KB").data then
    if natOfDigits (v.data.takeWhile (fun c => c.isDigit)) < 2 ^ 64 then
      some (natOfDigits (v.data.takeWhile (fun c => c.isDigit)))
    else none
  else none

/-- Inserting a key into a Go `map[string]bool`: the key set grows only
when the key is new.  Only the key set (and its size) is observable. -/
def insertKey (x : String) (l : List String) : List String :=
  if x ∈ l then l else x :: l

/-- Go's `uint(c)` on an `int`: two's-complement reinterpretation. -/
def uintOfInt (c : Int) : Nat := (c % (2 ^ 64 : Int)).toNat

/-- The `CPU` struct (zero value: empty strings and zeros). -/
structure CPU where
  Vendor : String := ""
  Model : String := ""
  Speed : Nat := 0
  Cache : Nat := 0
  Cpus : Nat := 0
  Cores : Nat := 0
  Threads : Nat := 0
  Flags : String := ""
  deriving Repr, DecidableEq

/-- The loop state of `getCPUInfo`: the `cpu` and `core` key sets, the
fallback counters, the current `cpuID`, and the fields of `si.CPU`
assigned during the scan. -/
structure ScanSt where
  cpuKeys : List String := []
  coreKeys : List String := []
  cpuCount : Nat := 0
  coreCount : Int := 0
  cpuID : String := ""
  si : CPU := {}
  deriving Repr, DecidableEq

/-- The field keys whose switch cases read `sl[1]`; a line that splits
into a single field equal to one of these panics with index out of
range. -/
def fieldKeys : List String :=
  ["processor", "core id", "cpu cores", "vendor_id", "flags",
   "model name", "cpu MHz", "cache size"]

/-- One iteration of the scan loop of `getCPUInfo` on one line.
`pm` models `strconv.ParseFloat(·, 32)` composed with `uint`;
`none` models the index-out-of-range panic on `sl[1]`. -/
def processLine (pm : String → Option Nat) (st : ScanSt) (line : String) :
    Option ScanSt :=
  match splitTwo line with
  | (whole, none) => if whole ∈ fieldKeys then none else some st
  | (key, some val) =>
    if key = "processor" then
      some { st with cpuID := val, cpuKeys := insertKey val st.cpuKeys,
                     cpuCount := st.cpuCount + 1 }
    else if key = "core id" then
      some { st with coreKeys := insertKey (st.cpuID ++ "/" ++ val) st.coreKeys }
    else if key = "cpu cores" then
      some { st with coreCount :=
        (match parseInt8 val with
         | some c => st.coreCount + c
         | none => st.coreCount) + 1 }
    else if key = "vendor_id" then
      some { st with si :=
        if st.si.Vendor = "" then { st.si with Vendor := val } else st.si }
    else if key = "flags" then
      some { st with si :=
        if st.si.Flags = "" then { st.si with Flags := val } else st.si }
    else if key = "model name" then
      some { st with si :=
        if st.si.Model = "" then
          { st.si with Model := String.mk (replaceDashSpace (collapseSpaces val.data)) }
        else st.si }
    else if key = "cpu MHz" then
      some { st with si :=
        if st.si.Speed = 0 then
          (match pm val with
           | some n => { st.si with Speed := n }
           | none => st.si)
        else st.si }
    else if key = "cache size" then
      some { st with si :=
        if st.si.Cache = 0 then
          (match parseCacheSize val with
           | some n => { st.si with Cache := n }
           | none => st.si)
        else st.si }
    else
      some st

/-- The scan loop over all delivered lines; `none` propagates a panic. -/
def scanLines (pm : String → Option Nat) (st : ScanSt) :
    List String → Option ScanSt
  | [] => some st
  | l :: ls =>
    match processLine pm st l with
    | none => none
    | some st' => scanLines pm st' ls

/-- `getCPUInfo`.  `numCPU` is `runtime.NumCPU()`; `hostname` and
`hypervisor` are `si.Node.Hostname` and `si.Node.Hypervisor`; `file` is
`none` when `os.Open` fails, and otherwise carries the scanned lines and
whether the scanner reported an error at end of stream.  The result is
`none` exactly when the scan panics. -/
def getCPUInfo (numCPU : Nat) (hostname hypervisor : String)
    (pm : String → Option Nat) (file : Option (List String × Bool)) :
    Option CPU :=
  let si0 : CPU := { Threads := numCPU }
  match file with
  | none => some si0
  | some (lines, scanErr) =>
    match scanLines pm { si := si0 } lines with
    | none => none
    | some st =>
      if scanErr then some st.si
      else
        let si1 :=
          if hostname = "" ∨ hypervisor ≠ "" then
            { st.si with Cpus := st.cpuCount, Cores := uintOfInt st.coreCount }
          else st.si
        some { si1 with Cpus := st.cpuKeys.length, Cores := st.coreKeys.length }

/-- A `NetworkDevice` fact (zero value: empty strings, empty list, 0). -/
structure NetworkDevice where
  Name : String := ""
  Driver : String := ""
  IpAddresses : List String := []
  MACAddress : String := ""
  Port : String := ""
  Speed : Nat := 0
  deriving Repr, DecidableEq

/-- The fields of `ethtoolLinkSettingType` the code reads after the
ioctls: the echoed command code, the speed, the port byte, and the
signed 8-bit `LinkModeMasksNwords`. -/
structure LinkSettings where
  cmd : Nat := 0
  speed : Nat := 0
  port : Nat := 0
  nwords : Int := 0
  deriving Repr, DecidableEq

/-- The host environment of `getNetworkInfo`: `dir` is the
`ioutil.ReadDir("/sys/class/net")` outcome (`none` on error); `readlinkOk`
is whether `os.Readlink` on the entry succeeds; `modernSocketOk`,
`ioctl1`, `ioctl2` model the socket and the two `SIOCETHTOOL` ioctls of
the `ETHTOOL_GLINKSETTINGS` query (`none` = nonzero errno, `some` = the
struct contents the kernel wrote); `legacySocketOk` and `legacyIoctl`
model the `ETHTOOL_GSET` query (`some` = the `Supported` word);
`ifaceAddrs` is the `net.InterfaceByName`/`Addrs` outcome (`none` when
the lookup fails, in which case the nil interface's `Addrs` errors and
yields no addresses); `mac` is `slurpFile` of the `address` attribute;
`driverLink` is `os.Readlink` of `device/driver` (`none` on error). -/
structure NetEnv where
  dir : Option (List String)
  readlinkOk : String → Bool
  modernSocketOk : Bool
  ioctl1 : String → Option LinkSettings
  ioctl2 : String → Option LinkSettings
  legacySocketOk : Bool
  legacyIoctl : String → Option Nat
  ifaceAddrs : String → Option (List String)
  mac : String → String
  driverLink : String → Option String

/-- `getPortType`: scan bits 7–11 of the legacy `Supported` word, append
`"tp" "aui" "mii" "fibre" "bnc"` each followed by `"/"`, then trim the
trailing slashes. -/
def getPortType (supp : Nat) : String :=
  let port :=
    (if supp &&& (1 <<< 7) > 0 then "tp/" else "") ++
    (if supp &&& (1 <<< 8) > 0 then "aui/" else "") ++
    (if supp &&& (1 <<< 9) > 0 then "mii/" else "") ++
    (if supp &&& (1 <<< 10) > 0 then "fibre/" else "") ++
    (if supp &&& (1 <<< 11) > 0 then "bnc/" else "")
  String.mk (port.data.reverse.dropWhile (fun c => c = '/')).reverse

/-- `getPortTypeForGLinkSetting`: decode the port byte of the modern
link-settings struct. -/
def getPortTypeForGLinkSetting (supp : Nat) : String :=
  if supp = 0x00 then "twisted pair"
  else if supp = 0x01 then "AUI"
  else if supp = 0x02 then "media-independent"
  else if supp = 0x03 then "fibre"
  else if supp = 0x04 then "BNC"
  else if supp = 0x05 then "direct attach"
  else if supp = 0xef then "none"
  else if supp = 0xff then "other"
  else ""

/-- `getMaxSpeed`: priority cascade of mask tests over the legacy
`Supported` word. -/
def getMaxSpeed (supp : Nat) : Nat :=
  if supp &&& 0x78000000 > 0 then 56000
  else if supp &&& 0x07800000 > 0 then 40000
  else if supp &&& 0x00600000 > 0 then 20000
  else if supp &&& 0x001c1000 > 0 then 10000
  else if supp &&& 0x00008000 > 0 then 2500
  else if supp &&& 0x00020030 > 0 then 1000
  else if supp &&& 0x0000000c > 0 then 100
  else if supp &&& 0x00000003 > 0 then 10
  else 0

/-- `getSupported`: the `ETHTOOL_GSET` query; 0 on any failure. -/
def getSupported (env : NetEnv) (name : String) : Nat :=
  if env.legacySocketOk then
    match env.legacyIoctl name with
    | some s => s
    | none => 0
  else 0

/-- `getSupportedWithEthtoolGLinkSetting`: the `ETHTOOL_GLINKSETTINGS`
negotiation.  When the first ioctl reports success but
`LinkModeMasksNwords >= 0` or the echoed command code differs from
`0x4c`, the function returns an error; otherwise it retries with the
negated word count and returns the struct the second ioctl filled in.
`none` models every returned error. -/
def getSupportedWithEthtoolGLinkSetting (env : NetEnv) (name : String) :
    Option LinkSettings :=
  if env.modernSocketOk then
    match env.ioctl1 name with
    | some ls =>
      if 0 ≤ ls.nwords ∨ ls.cmd ≠ 0x4c then none
      else
        match env.ioctl2 name with
        | some ls2 => some ls2
        | none => none
    | none => none
  else none

/-- `path.Base` of the resolved driver link target. -/
def pathBase (s : String) : String :=
  if s = "" then "."
  else
    let b := ((s.data.reverse.dropWhile (fun c => c = '/')).takeWhile
      (fun c => ¬ c = '/')).reverse
    if b = [] then "/" else String.mk b

/-- The loop body of `getNetworkInfo` for one resolvable directory entry:
query the modern link settings, fall back to the legacy bitmask on error,
collect interface addresses (gated — as in the code — on the modern
query's error variable), and read MAC and driver facts. -/
def mkDevice (env : NetEnv) (name : String) : NetworkDevice :=
  let gls := getSupportedWithEthtoolGLinkSetting env name
  let port :=
    match gls with
    | none => getPortType (getSupported env name)
    | some ls => getPortTypeForGLinkSetting ls.port
  let speed :=
    match gls with
    | none => getMaxSpeed (getSupported env name)
    | some ls => ls.speed
  let addrs :=
    match gls with
    | none => []
    | some _ =>
      match env.ifaceAddrs name with
      | some l => l
      | none => []
  { Name := name
    MACAddress := env.mac name
    Port := port
    Speed := speed
    IpAddresses := addrs
    Driver :=
      match env.driverLink name with
      | some d => pathBase d
      | none => "" }

/-- `getNetworkInfo`: on a readable directory, one fact per entry whose
symlink resolves, in directory order; `none` models the early return that
leaves `si.Network` nil when `ReadDir` fails. -/
def getNetworkInfo (env : NetEnv) : Option (List NetworkDevice) :=
  match env.dir with
  | none => none
  | some entries =>
    some ((entries.filter (fun n => env.readlinkOk n)).map (mkDevice env))

/-! ## Specification-side definitions

These restate the spec's vocabulary independently of the loop state:
the list of processor-index values of a stream, the composite
(processor-index, core-id) pairs, and declarative forms of the
normalisation and parsing requirements. -/

/-- Spec-side: the processor-index values of a record stream, in order,
one per `processor` line (raw tally = length; distinct count = card of
the corresponding finset). -/
def procValues : List String → List String
  | [] => []
  | l :: ls =>
    match splitTwo l with
    | (k, some v) => if k = "processor" then v :: procValues ls else procValues ls
    | (_, none) => procValues ls

/-- Spec-side: the composite (processor-index, core-id) pairs of a record
stream, tracking the current processor index (`cur` before the stream
starts). -/
def corePairs (cur : String) : List String → List (String × String)
  | [] => []
  | l :: ls =>
    match splitTwo l with
    | (k, some v) =>
      if k = "processor" then corePairs v ls
      else if k = "core id" then (cur, v) :: corePairs cur ls
      else corePairs cur ls
    | (_, none) => corePairs cur ls

/-- The composite core key the code builds from a pair. -/
def encodeKey (p : String × String) : String := p.1 ++ "/" ++ p.2

/-- Spec-side collapse of space runs, written as a right fold: keep a
space only when the already-collapsed tail does not start with one. -/
def specCollapse (l : List Char) : List Char :=
  l.foldr (fun c acc => if c = ' ' ∧ acc.head? = some ' ' then acc else c :: acc) []

/-- Spec-side: `v` has exactly the form `"<digits> KB"` with value `n`. -/
def specCacheForm (v : String) (n : Nat) : Prop :=
  ∃ ds : List Char, ds ≠ [] ∧ (∀ c ∈ ds, c.isDigit) ∧
    v.data = ds ++ (' ' :: 'K' :: 'B' :: []) ∧ n = natOfDigits ds

/-- Spec-side: the port names whose bit (positions 7 through 11, in
order) is set in the legacy bitmask. -/
def specPortNames (supp : Nat) : List String :=
  (([(7, "tp"), (8, "aui"), (9, "mii"), (10, "fibre"), (11, "bnc")] :
      List (Nat × String)).filter
    (fun p => supp &&& (1 <<< p.1) > 0)).map Prod.snd

/-- Spec-side: the priority-ordered speed tests. -/
def specSpeedTable : List (Nat × Nat) :=
  [(0x78000000, 56000), (0x07800000, 40000), (0x00600000, 20000),
   (0x001c1000, 10000), (0x00008000, 2500), (0x00020030, 1000),
   (0x0000000c, 100), (0x00000003, 10)]

/-- Spec-side: the first matching test wins; 0 when none matches. -/
def firstMatch (supp : Nat) : List (Nat × Nat) → Nat
  | [] => 0
  | (m, s) :: r => if supp &&& m > 0 then s else firstMatch supp r

/-! ## Concrete inputs used in evaluations -/

/-- A stream with the same processor index on two `processor` lines. -/
def dupProcStream : List String := ["processor\t: 0", "processor\t: 0"]

/-- A stream with two distinct processor indices. -/
def twoProcStream : List String := ["processor\t: 0", "processor\t: 1"]

/-- A stream whose composite keys collide although the (processor-index,
core-id) pairs differ: `"0/0" / "0"` and `"0" / "0/0"` both encode to
`"0/0/0"`. -/
def slashStream : List String :=
  ["processor\t: 0/0", "core id\t: 0", "processor\t: 0", "core id\t: 0/0"]

/-- Environment where the modern capability query fails (first ioctl
errno nonzero), the legacy bitmask is `0x80` (bit 7: `"tp"`), and the
interface-address lookup succeeds with one address. -/
def netEnvStale : NetEnv :=
  { dir := some ["eth0"], readlinkOk := fun _ => true,
    modernSocketOk := true, ioctl1 := fun _ => none, ioctl2 := fun _ => none,
    legacySocketOk := true, legacyIoctl := fun _ => some 0x80,
    ifaceAddrs := fun _ => some ["10.0.0.1/24"],
    mac := fun _ => "aa:bb:cc:dd:ee:ff", driverLink := fun _ => none }

/-- Environment whose modern query reports success with a non-negative
mode-mask word count (handshake marker unset). -/
def netEnvBadNwords : NetEnv :=
  { dir := some ["eth1"], readlinkOk := fun _ => true,
    modernSocketOk := true,
    ioctl1 := fun _ => some { cmd := 0x4c, speed := 1000, port := 0, nwords := 3 },
    ioctl2 := fun _ => some { cmd := 0x4c, speed := 1000, port := 0, nwords := 3 },
    legacySocketOk := true, legacyIoctl := fun _ => some 0x280,
    ifaceAddrs := fun _ => none, mac := fun _ => "",
    driverLink := fun _ => none }

/-- Environment with one resolvable entry and one dangling entry. -/
def netEnvDangling : NetEnv :=
  { dir := some ["eth0", "dangling"], readlinkOk := fun n => n == "eth0",
    modernSocketOk := false, ioctl1 := fun _ => none, ioctl2 := fun _ => none,
    legacySocketOk := false, legacyIoctl := fun _ => none,
    ifaceAddrs := fun _ => none, mac := fun _ => "",
    driverLink := fun _ => none }

/-- A stream with one repeated core id under two distinct processor
indices. -/
def dedupStream : List String :=
  ["processor\t: 0", "core id\t: 0", "processor\t: 1", "core id\t: 0"]

/-! ## Helper lemmas about the scan loop -/

theorem insertKey_toFinset (x : String) (l : List String) :
    (insertKey x l).toFinset = insert x l.toFinset := by
  unfold insertKey
  split
  · exact (Finset.insert_eq_self.mpr (List.mem_toFinset.mpr (by assumption))).symm
  · exact List.toFinset_cons

theorem insertKey_nodup (x : String) (l : List String) (h : l.Nodup) :
    (insertKey x l).Nodup := by
  unfold insertKey
  split
  · exact h
  · exact List.nodup_cons.mpr ⟨by assumption, h⟩

theorem toFinset_map_eq {α β : Type} [DecidableEq α] [DecidableEq β]
    (f : α → β) (l : List α) : (l.map f).toFinset = l.toFinset.image f := by
  induction l with
  | nil => simp
  | cons a t ih => simp [ih]

/-- Case analysis on one loop iteration: either a `processor` line, a
`core id` line, or a line leaving the key sets, counters, current
processor index, and the `Threads`/`Cpus`/`Cores` fields untouched. -/
theorem processLine_cases (pm : String → Option Nat) (st : ScanSt) (l : String)
    (st₁ : ScanSt) (h : processLine pm st l = some st₁) :
    (∃ v, splitTwo l = ("processor", some v) ∧
       st₁.cpuID = v ∧ st₁.cpuKeys = insertKey v st.cpuKeys ∧
       st₁.coreKeys = st.coreKeys ∧ st₁.cpuCount = st.cpuCount + 1 ∧
       st₁.si.Threads = st.si.Threads ∧ st₁.si.Cpus = st.si.Cpus ∧
       st₁.si.Cores = st.si.Cores) ∨
    (∃ v, splitTwo l = ("core id", some v) ∧
       st₁.cpuID = st.cpuID ∧ st₁.cpuKeys = st.cpuKeys ∧
       st₁.coreKeys = insertKey (st.cpuID ++ "/" ++ v) st.coreKeys ∧
       st₁.cpuCount = st.cpuCount ∧
       st₁.si.Threads = st.si.Threads ∧ st₁.si.Cpus = st.si.Cpus ∧
       st₁.si.Cores = st.si.Cores) ∨
    ((∀ v, splitTwo l ≠ ("processor", some v)) ∧
     (∀ v, splitTwo l ≠ ("core id", some v)) ∧
       st₁.cpuID = st.cpuID ∧ st₁.cpuKeys = st.cpuKeys ∧
       st₁.coreKeys = st.coreKeys ∧ st₁.cpuCount = st.cpuCount ∧
       st₁.si.Threads = st.si.Threads ∧ st₁.si.Cpus = st.si.Cpus ∧
       st₁.si.Cores = st.si.Cores) := by
  unfold processLine at h
  rcases hsp : splitTwo l with ⟨k, o⟩
  rw [hsp] at h
  rcases o with _ | v
  · dsimp only at h
    by_cases hm : k ∈ fieldKeys
    · rw [if_pos hm] at h; exact absurd h (by simp)
    · rw [if_neg hm] at h
      injection h with h
      subst h
      refine Or.inr (Or.inr ⟨?_, ?_, rfl, rfl, rfl, rfl, rfl, rfl, rfl⟩) <;>
        (intro v hv; exact absurd hv (by simp))
  · dsimp only at h
    by_cases hk1 : k = "processor"
    · subst hk1
      rw [if_pos rfl] at h
      injection h with h
      subst h
      exact Or.inl ⟨v, rfl, rfl, rfl, rfl, rfl, rfl, rfl, rfl⟩
    · rw [if_neg hk1] at h
      by_cases hk2 : k = "core id"
      · subst hk2
        rw [if_pos rfl] at h
        injection h with h
        subst h
        exact Or.inr (Or.inl ⟨v, rfl, rfl, rfl, rfl, rfl, rfl, rfl, rfl⟩)
      · rw [if_neg hk2] at h
        have hnp : ∀ v' : String,
            ((k, some v) : String × Option String) ≠ ("processor", some v') := by
          intro v' hv
          injection hv with ha hb
          exact hk1 ha
        have hnc : ∀ v' : String,
            ((k, some v) : String × Option String) ≠ ("core id", some v') := by
          intro v' hv
          injection hv with ha hb
          exact hk2 ha
        split_ifs at h <;>
          (injection h with h; subst h;
           refine Or.inr (Or.inr ⟨hnp, hnc, ?_, ?_, ?_, ?_, ?_, ?_, ?_⟩) <;>
             first
               | rfl
               | (cases pm v <;> rfl)
               | (cases parseCacheSize v <;> rfl))

/-- The scan-loop invariant: the key sets accumulate exactly the distinct
processor-index values and the distinct encoded composite keys, staying
duplicate-free; the raw counter counts `processor` lines; and the
`Threads`/`Cpus`/`Cores` fields of the struct are untouched. -/
theorem scanLines_spec (pm : String → Option Nat) (lines : List String) :
    ∀ st st' : ScanSt, scanLines pm st lines = some st' →
      st'.cpuKeys.toFinset = st.cpuKeys.toFinset ∪ (procValues lines).toFinset ∧
      st'.coreKeys.toFinset = st.coreKeys.toFinset ∪
        ((corePairs st.cpuID lines).map encodeKey).toFinset ∧
      (st.cpuKeys.Nodup → st'.cpuKeys.Nodup) ∧
      (st.coreKeys.Nodup → st'.coreKeys.Nodup) ∧
      st'.cpuCount = st.cpuCount + (procValues lines).length ∧
      st'.si.Threads = st.si.Threads ∧ st'.si.Cpus = st.si.Cpus ∧
      st'.si.Cores = st.si.Cores := by
  induction lines with
  | nil =>
    intro st st' h
    rw [scanLines] at h
    injection h with h
    subst h
    simp [procValues, corePairs]
  | cons l ls ih =>
    intro st st' h
    rw [scanLines] at h
    rcases hp : processLine pm st l with _ | st₁
    · rw [hp] at h; exact absurd h (by simp)
    · rw [hp] at h
      have IH := ih st₁ st' h
      obtain ⟨i1, i2, i3, i4, i5, i6, i7, i8⟩ := IH
      rcases processLine_cases pm st l st₁ hp with
        ⟨v, hsp, e1, e2, e3, e4, e5, e6, e7⟩ |
        ⟨v, hsp, e1, e2, e3, e4, e5, e6, e7⟩ |
        ⟨hnp, hnc, e1, e2, e3, e4, e5, e6, e7⟩
      · -- processor line
        refine ⟨?_, ?_, ?_, ?_, ?_, ?_, ?_, ?_⟩
        · rw [i1, e2, insertKey_toFinset]
          simp [procValues, hsp, Finset.insert_union, Finset.union_insert]
        · rw [i2, e3, e1]
          simp [corePairs, hsp]
        · intro hn
          apply i3
          rw [e2]
          exact insertKey_nodup _ _ hn
        · intro hn
          apply i4
          rw [e3]
          exact hn
        · rw [i5, e4]
          simp [procValues, hsp]
          omega
        · rw [i6, e5]
        · rw [i7, e6]
        · rw [i8, e7]
      · -- core id line
        refine ⟨?_, ?_, ?_, ?_, ?_, ?_, ?_, ?_⟩
        · rw [i1, e2]
          simp [procValues, hsp]
        · rw [i2, e3, e1, insertKey_toFinset]
          simp [corePairs, hsp, encodeKey, Finset.insert_union, Finset.union_insert]
        · intro hn
          apply i3
          rw [e2]
          exact hn
        · intro hn
          apply i4
          rw [e3]
          exact insertKey_nodup _ _ hn
        · rw [i5, e4]
          simp [procValues, hsp]
        · rw [i6, e5]
        · rw [i7, e6]
        · rw [i8, e7]
      · -- any other line
        rcases hsp : splitTwo l with ⟨k, o⟩
        have hskip : procValues (l :: ls) = procValues ls ∧
            ∀ cur, corePairs cur (l :: ls) = corePairs cur ls := by
          rcases o with _ | v
          · exact ⟨by simp [procValues, hsp], fun cur => by simp [corePairs, hsp]⟩
          · have h1 : ¬ k = "processor" := fun hk => hnp v (by rw [hsp, hk])
            have h2 : ¬ k = "core id" := fun hk => hnc v (by rw [hsp, hk])
            exact ⟨by simp [procValues, hsp, h1],
              fun cur => by simp [corePairs, hsp, h1, h2]⟩
        refine ⟨?_, ?_, ?_, ?_, ?_, ?_, ?_, ?_⟩
        · rw [i1, e2, hskip.1]
        · rw [i2, e3, e1, hskip.2]
        · intro hn
          apply i3
          rw [e2]
          exact hn
        · intro hn
          apply i4
          rw [e3]
          exact hn
        · rw [i5, e4, hskip.1]
        · rw [i6, e5]
        · rw [i7, e6]
        · rw [i8, e7]

theorem data_append (a b : String) : (a ++ b).data = a.data ++ b.data := rfl

theorem slash_data : ("/" : String).data = ['/'] := rfl

theorem string_ext {a b : String} (h : a.data = b.data) : a = b :=
  congrArg String.mk h

theorem append_slash_inj : ∀ (a a' b b' : List Char), '/' ∉ a → '/' ∉ a' →
    a ++ '/' :: b = a' ++ '/' :: b' → a = a' ∧ b = b' := by
  intro a
  induction a with
  | nil =>
    intro a' b b' _ ha' h
    cases a' with
    | nil =>
      simp only [List.nil_append] at h
      exact ⟨rfl, by injection h⟩
    | cons c t =>
      simp only [List.nil_append, List.cons_append] at h
      injection h with h1 h2
      exact absurd (h1 ▸ List.mem_cons_self c t) ha'
  | cons c t ih =>
    intro a' b b' ha ha' h
    cases a' with
    | nil =>
      simp only [List.cons_append, List.nil_append] at h
      injection h with h1 h2
      exact absurd (h1.symm ▸ List.mem_cons_self c t) ha
    | cons c' t' =>
      simp only [List.cons_append] at h
      injection h with h1 h2
      obtain ⟨e1, e2⟩ := ih t' b b' (fun hm => ha (List.mem_cons_of_mem c hm))
        (fun hm => ha' (List.mem_cons_of_mem c' hm)) h2
      exact ⟨by rw [h1, e1], e2⟩

theorem encodeKey_inj (p q : String × String) (hp : '/' ∉ p.1.data)
    (hq : '/' ∉ q.1.data) (h : encodeKey p = encodeKey q) : p = q := by
  have h2 := congrArg String.data h
  simp only [encodeKey, data_append, slash_data, List.append_assoc,
    List.singleton_append] at h2
  obtain ⟨e1, e2⟩ := append_slash_inj p.1.data q.1.data p.2.data q.2.data hp hq h2
  obtain ⟨p1, p2⟩ := p
  obtain ⟨q1, q2⟩ := q
  exact Prod.ext (string_ext e1) (string_ext e2)

theorem corePairs_fst : ∀ (lines : List String) (cur : String)
    (p : String × String), p ∈ corePairs cur lines →
    p.1 = cur ∨ p.1 ∈ procValues lines := by
  intro lines
  induction lines with
  | nil => intro cur p hp; simp [corePairs] at hp
  | cons l ls ih =>
    intro cur p hp
    rcases hsp : splitTwo l with ⟨k, o⟩
    rcases o with _ | v
    · simp only [corePairs, hsp] at hp
      simp only [procValues, hsp]
      exact ih cur p hp
    · by_cases h1 : k = "processor"
      · subst h1
        simp only [corePairs, hsp, if_pos rfl] at hp
        simp only [procValues, hsp, if_pos rfl]
        rcases ih v p hp with e | e
        · exact Or.inr (e ▸ List.mem_cons_self v _)
        · exact Or.inr (List.mem_cons_of_mem v e)
      · by_cases h2 : k = "core id"
        · subst h2
          simp only [corePairs, hsp, h1, if_pos rfl, if_false] at hp
          simp only [procValues, hsp, h1, if_false]
          rcases List.mem_cons.mp hp with e | hp2
          · exact Or.inl (congrArg Prod.fst e)
          · exact ih cur p hp2
        · simp only [corePairs, hsp, h1, h2, if_false] at hp
          simp only [procValues, hsp, h1, if_false]
          exact ih cur p hp

theorem encode_card (ps : List (String × String))
    (h : ∀ p ∈ ps, '/' ∉ p.1.data) :
    (ps.map encodeKey).toFinset.card = ps.toFinset.card := by
  rw [toFinset_map_eq]
  apply Finset.card_image_of_injOn
  intro p hp q hq he
  exact encodeKey_inj p q (h p (List.mem_toFinset.mp (Finset.mem_coe.mp hp)))
    (h q (List.mem_toFinset.mp (Finset.mem_coe.mp hq))) he

/-- C1: on a virtualized host the code's fallback assignment
`Cpus := cpuCount` is immediately overwritten by the deduplicated set
size, so for a stream with two identical `processor` lines the reported
package count is 1 although the raw tally of processor-index lines is
2 — evaluating the code at the failing input of the claim. -/
theorem getCPUInfo_virtual_fallback_dead :
    Option.map CPU.Cpus
      (getCPUInfo 4 "host" "kvm" (fun _ => none) (some (dupProcStream, false)))
      = some 1 ∧
    (procValues dupProcStream).length = 2 ∧ (1 : Nat) ≠ 2 :=
  ⟨rfl, rfl, by decide⟩

/-- C3: the topology reader is not panic-free: a record stream containing
the line `"processor"` with no tab-colon separator makes the code index
the missing second split field, an index-out-of-range panic (modelled as
`none`). -/
theorem getCPUInfo_bare_key_panics :
    getCPUInfo 4 "host" "" (fun _ => none) (some (["processor"], false)) = none :=
  rfl

/-- C2: the IP-address list is gated on the modern capability query's
stale error variable, not on the interface-address lookup: with the
modern query failing and the lookup succeeding with one address, the
emitted device carries an empty address list. -/
theorem getNetworkInfo_ip_gated_on_modern_query :
    getNetworkInfo netEnvStale =
      some [{ Name := "eth0", Driver := "", IpAddresses := [],
              MACAddress := "aa:bb:cc:dd:ee:ff", Port := "tp", Speed := 0 }] ∧
    netEnvStale.ifaceAddrs "eth0" = some ["10.0.0.1/24"] :=
  ⟨rfl, rfl⟩

/-- C6 counterexample: the code deduplicates composite keys, not pairs;
on `slashStream` the two distinct (processor-index, core-id) pairs encode
to the same key, so the reported core count is 1, not 2. -/
theorem getCPUInfo_core_pair_collision :
    Option.map CPU.Cores
      (getCPUInfo 4 "host" "" (fun _ => none) (some (slashStream, false)))
      = some 1 ∧
    (corePairs "" slashStream).toFinset.card = 2 ∧ (1 : Nat) ≠ 2 :=
  ⟨rfl, by decide, by decide⟩

/-- C7 counterexample: a stream with two distinct processor indices read
on a host reporting a single logical CPU yields a package count (2)
exceeding the logical-thread count (1). -/
theorem getCPUInfo_cpus_exceed_threads :
    Option.map CPU.Cpus
      (getCPUInfo 1 "host" "" (fun _ => none) (some (twoProcStream, false)))
      = some 2 ∧
    Option.map CPU.Threads
      (getCPUInfo 1 "host" "" (fun _ => none) (some (twoProcStream, false)))
      = some 1 ∧
    ¬ ((2 : Nat) ≤ 1) :=
  ⟨rfl, rfl, by decide⟩

/-- C5: a modern-query response with zero errno but a non-negative
mode-mask word count, or a mismatched echoed command code, is a failure:
the query returns no settings and the device's port and speed facts come
from the legacy bitmask path. -/
theorem glinksettings_handshake_failure (env : NetEnv) (name : String)
    (ls : LinkSettings) (hs : env.modernSocketOk = true)
    (h1 : env.ioctl1 name = some ls)
    (hbad : 0 ≤ ls.nwords ∨ ls.cmd ≠ 0x4c) :
    getSupportedWithEthtoolGLinkSetting env name = none ∧
    (mkDevice env name).Port = getPortType (getSupported env name) ∧
    (mkDevice env name).Speed = getMaxSpeed (getSupported env name) := by
  have hg : getSupportedWithEthtoolGLinkSetting env name = none := by
    simp only [getSupportedWithEthtoolGLinkSetting, hs, h1, if_true]
    rw [if_pos hbad]
  exact ⟨hg, by simp [mkDevice, hg], by simp [mkDevice, hg]⟩

/-- Witness for the C5 theorem at a concrete environment. -/
theorem glinksettings_handshake_failure_witness :
    getSupportedWithEthtoolGLinkSetting netEnvBadNwords "eth1" = none ∧
    (mkDevice netEnvBadNwords "eth1").Port
      = getPortType (getSupported netEnvBadNwords "eth1") ∧
    (mkDevice netEnvBadNwords "eth1").Speed
      = getMaxSpeed (getSupported netEnvBadNwords "eth1") :=
  glinksettings_handshake_failure netEnvBadNwords "eth1"
    { cmd := 0x4c, speed := 1000, port := 0, nwords := 3 }
    rfl rfl (Or.inl (by decide))

/-- C4: a directory with one resolvable and one dangling entry (in
either order) yields exactly the one fact for the resolvable entry. -/
theorem getNetworkInfo_one_resolvable_one_dangling (env : NetEnv)
    (a b : String) (hdir : env.dir = some [a, b]) :
    (env.readlinkOk a = true → env.readlinkOk b = false →
       getNetworkInfo env = some [mkDevice env a] ∧ (mkDevice env a).Name = a) ∧
    (env.readlinkOk a = false → env.readlinkOk b = true →
       getNetworkInfo env = some [mkDevice env b] ∧ (mkDevice env b).Name = b) := by
  constructor <;> intro ha hb <;> refine ⟨?_, rfl⟩ <;>
    simp [getNetworkInfo, hdir, List.filter, ha, hb]

/-- Witness for the C4 theorem at a concrete environment. -/
theorem getNetworkInfo_one_resolvable_one_dangling_witness :
    getNetworkInfo netEnvDangling = some [mkDevice netEnvDangling "eth0"] ∧
    (mkDevice netEnvDangling "eth0").Name = "eth0" :=
  (getNetworkInfo_one_resolvable_one_dangling netEnvDangling "eth0" "dangling"
    rfl).1 rfl rfl

/-- C8: the legacy port label is the in-order `"/"`-join of the names of
the set bits among positions 7–11 (so bits 7 and 9 give `"tp/mii"`), and
the legacy max speed is the first match of the priority-ordered tests,
with 0 when no test matches (a mask matching both the 10000 and 1000
tests, such as `0x1020`, gives 10000). -/
theorem legacy_port_and_speed_decoding (supp : Nat) :
    getPortType supp = String.intercalate "/" (specPortNames supp) ∧
    getMaxSpeed supp = firstMatch supp specSpeedTable ∧
    getPortType (2 ^ 7 + 2 ^ 9) = "tp/mii" ∧
    getMaxSpeed 0x1020 = 10000 := by
  refine ⟨?_, ?_, by decide, by decide⟩
  · by_cases h7 : 0 < supp &&& 128 <;>
    by_cases h8 : 0 < supp &&& 256 <;>
    by_cases h9 : 0 < supp &&& 512 <;>
    by_cases h10 : 0 < supp &&& 1024 <;>
    by_cases h11 : 0 < supp &&& 2048 <;>
      simp [getPortType, specPortNames, h7, h8, h9, h10, h11,
        String.intercalate] <;> rfl
  · rfl

/-- C6 (amended): in non-virtualized mode the reported package count is
the number of distinct processor-index values, and the reported core
count is the number of distinct composite (processor-index, core-id)
pairs provided no processor-index value contains `'/'` (the code
deduplicates the concatenated key `index ++ "/" ++ coreId`, which
identifies pairs only when the index is slash-free). -/
theorem getCPUInfo_nonvirt_distinct_counts (numCPU : Nat)
    (hostname hypervisor : String) (pm : String → Option Nat)
    (lines : List String) (cpu : CPU)
    (hhn : hostname ≠ "") (hhv : hypervisor = "")
    (hrun : getCPUInfo numCPU hostname hypervisor pm (some (lines, false)) = some cpu) :
    cpu.Cpus = (procValues lines).toFinset.card ∧
    ((∀ v ∈ procValues lines, '/' ∉ v.data) →
      cpu.Cores = (corePairs "" lines).toFinset.card) := by
  unfold getCPUInfo at hrun
  dsimp only at hrun
  rcases hs : scanLines pm { si := { Threads := numCPU } } lines with _ | st
  · rw [hs] at hrun; exact absurd hrun (by simp)
  · rw [hs] at hrun
    dsimp only at hrun
    rw [if_neg (by simp)] at hrun
    obtain ⟨q1, q2, q3, q4, q5, q6, q7, q8⟩ :=
      scanLines_spec pm lines { si := { Threads := numCPU } } st hs
    injection hrun with hrun
    subst hrun
    have hnodc : st.cpuKeys.Nodup := q3 List.nodup_nil
    have hnodk : st.coreKeys.Nodup := q4 List.nodup_nil
    constructor
    · show st.cpuKeys.length = _
      rw [← List.toFinset_card_of_nodup hnodc, q1]
      simp
    · intro hsl
      show st.coreKeys.length = _
      rw [← List.toFinset_card_of_nodup hnodk, q2]
      have : ((corePairs ({ si := { Threads := numCPU } } : ScanSt).cpuID
          lines).map encodeKey).toFinset.card
          = (corePairs "" lines).toFinset.card := by
        apply encode_card
        intro p hp
        rcases corePairs_fst lines "" p hp with e | e
        · rw [e]; intro hc; exact absurd hc (by simp)
        · exact hsl p.1 e
      rw [← this]
      simp

/-- Witness for the C6 theorem: a stream where the same core id appears
under two distinct processor indices counts as two distinct cores. -/
theorem getCPUInfo_nonvirt_distinct_counts_witness :
    (⟨"", "", 0, 0, 2, 2, 4, ""⟩ : CPU).Cpus
      = (procValues dedupStream).toFinset.card ∧
    (⟨"", "", 0, 0, 2, 2, 4, ""⟩ : CPU).Cores
      = (corePairs "" dedupStream).toFinset.card :=
  have h := getCPUInfo_nonvirt_distinct_counts 4 "host" "" (fun _ => none)
    dedupStream ⟨"", "", 0, 0, 2, 2, 4, ""⟩ (by decide) rfl rfl
  ⟨h.1, h.2 (by decide)⟩

/-- C7 (amended): the logical-thread count always equals (hence never
exceeds) the host's reported logical CPU count, and the package and core
counts are bounded by it provided the stream's distinct
processor-index count and distinct composite-key count do not exceed the
host's count. -/
theorem getCPUInfo_counts_bounded (numCPU : Nat)
    (hostname hypervisor : String) (pm : String → Option Nat)
    (lines : List String) (scanErr : Bool) (cpu : CPU)
    (hrun : getCPUInfo numCPU hostname hypervisor pm
      (some (lines, scanErr)) = some cpu)
    (hc : (procValues lines).toFinset.card ≤ numCPU)
    (hk : ((corePairs "" lines).map encodeKey).toFinset.card ≤ numCPU) :
    cpu.Cpus ≤ cpu.Threads ∧ cpu.Cores ≤ cpu.Threads ∧
    cpu.Threads ≤ numCPU := by
  unfold getCPUInfo at hrun
  dsimp only at hrun
  rcases hs : scanLines pm { si := { Threads := numCPU } } lines with _ | st
  · rw [hs] at hrun; exact absurd hrun (by simp)
  · rw [hs] at hrun
    dsimp only at hrun
    obtain ⟨q1, q2, q3, q4, q5, q6, q7, q8⟩ :=
      scanLines_spec pm lines { si := { Threads := numCPU } } st hs
    have hth : st.si.Threads = numCPU := q6
    have hcp : st.si.Cpus = 0 := q7
    have hco : st.si.Cores = 0 := q8
    cases scanErr with
    | true =>
      rw [if_pos rfl] at hrun
      injection hrun with hrun
      subst hrun
      exact ⟨by omega, by omega, by omega⟩
    | false =>
      rw [if_neg (by simp)] at hrun
      injection hrun with hrun
      subst hrun
      have hlen : st.cpuKeys.length ≤ numCPU := by
        rw [← List.toFinset_card_of_nodup (q3 List.nodup_nil), q1]
        simpa using hc
      have hklen : st.coreKeys.length ≤ numCPU := by
        rw [← List.toFinset_card_of_nodup (q4 List.nodup_nil), q2]
        simpa using hk
      have hthreads :
          (if hostname = "" ∨ hypervisor ≠ "" then
            { st.si with Cpus := st.cpuCount, Cores := uintOfInt st.coreCount }
          else st.si).Threads = numCPU := by
        split <;> exact hth
      exact ⟨by simpa [hthreads] using hlen,
        by simpa [hthreads] using hklen, by simp [hthreads]⟩

/-- Witness for the C7 theorem at a concrete stream and host count. -/
theorem getCPUInfo_counts_bounded_witness :
    (⟨"", "", 0, 0, 2, 0, 4, ""⟩ : CPU).Cpus
        ≤ (⟨"", "", 0, 0, 2, 0, 4, ""⟩ : CPU).Threads ∧
    (⟨"", "", 0, 0, 2, 0, 4, ""⟩ : CPU).Cores
        ≤ (⟨"", "", 0, 0, 2, 0, 4, ""⟩ : CPU).Threads ∧
    (⟨"", "", 0, 0, 2, 0, 4, ""⟩ : CPU).Threads ≤ 4 :=
  getCPUInfo_counts_bounded 4 "host" "" (fun _ => none) twoProcStream false
    ⟨"", "", 0, 0, 2, 0, 4, ""⟩ rfl (by decide) (by decide)

theorem splitAux_no_tab : ∀ (a acc rest : List Char), (∀ c ∈ a, c ≠ '\t') →
    splitAux acc (a ++ '\t' :: ':' :: ' ' :: rest) = (acc.reverse ++ a, some rest) := by
  intro a
  induction a with
  | nil =>
    intro acc rest _
    simp [splitAux, sepRest]
  | cons c t ih =>
    intro acc rest h
    have hc : c ≠ '\t' := h c (List.mem_cons_self c t)
    rw [List.cons_append, splitAux, if_neg hc,
      ih (c :: acc) rest (fun x hx => h x (List.mem_cons_of_mem c hx))]
    simp

theorem splitTwo_keyline (k v : String) (hk : ∀ c ∈ k.data, c ≠ '\t') :
    splitTwo (k ++ "\t: " ++ v) = (k, some v) := by
  unfold splitTwo
  have hd : (k ++ "\t: " ++ v).data = k.data ++ '\t' :: ':' :: ' ' :: v.data := by
    rw [data_append, data_append, List.append_assoc]
    rfl
  rw [hd, splitAux_no_tab k.data [] v.data hk]
  rfl

theorem specCollapse_cons (c : Char) (l : List Char) :
    specCollapse (c :: l) =
      if c = ' ' ∧ (specCollapse l).head? = some ' ' then specCollapse l
      else c :: specCollapse l := rfl

theorem specCollapse_space_head (r : List Char) :
    (specCollapse (' ' :: r)).head? = some ' ' := by
  rw [specCollapse_cons]
  split
  · rename_i h; exact h.2
  · rfl

theorem collapse_eq_spec (l : List Char) : collapseSpaces l = specCollapse l := by
  induction l using collapseSpaces.induct with
  | case1 r ih =>
    rw [collapseSpaces.eq_1, ih, specCollapse_cons ' ' (' ' :: r),
      if_pos ⟨rfl, specCollapse_space_head r⟩]
  | case2 c r hne ih =>
    rw [collapseSpaces.eq_2 c r hne, ih, specCollapse_cons]
    by_cases hc : c = ' '
    · subst hc
      rcases r with _ | ⟨c₂, r₂⟩
      · rw [if_neg (by simp [specCollapse])]
      · have hc₂ : c₂ ≠ ' ' := fun h => hne r₂ rfl (by rw [h])
        have hcond : ¬ (' ' = ' ' ∧ (specCollapse (c₂ :: r₂)).head? = some ' ') := by
          intro hcon
          have hh := hcon.2
          rw [specCollapse_cons, if_neg (fun hx => hc₂ hx.1)] at hh
          simp only [List.head?_cons, Option.some.injEq] at hh
          exact hc₂ hh
        rw [if_neg hcond]
    · rw [if_neg (fun hx => hc hx.1)]
  | case3 => rw [collapseSpaces.eq_3]; rfl

theorem takeWhile_digits (ds : List Char) (hd : ∀ c ∈ ds, c.isDigit) :
    (ds ++ ' ' :: 'K' :: 'B' :: []).takeWhile (fun c => c.isDigit) = ds ∧
    (ds ++ ' ' :: 'K' :: 'B' :: []).dropWhile (fun c => c.isDigit)
      = ' ' :: 'K' :: 'B' :: [] := by
  induction ds with
  | nil =>
    constructor <;> simp [List.takeWhile_cons, List.dropWhile_cons]
  | cons c t ih =>
    have hc := hd c (List.mem_cons_self c t)
    have iht := ih (fun x hx => hd x (List.mem_cons_of_mem c hx))
    constructor <;>
      simp [List.takeWhile_cons, List.dropWhile_cons, hc, iht.1, iht.2]

theorem mem_takeWhile {p : Char → Bool} :
    ∀ {l : List Char} {a : Char}, a ∈ l.takeWhile p → p a = true := by
  intro l
  induction l with
  | nil => intro a ha; simp [List.takeWhile] at ha
  | cons c t ih =>
    intro a ha
    rw [List.takeWhile_cons] at ha
    by_cases hc : p c = true
    · rw [if_pos hc] at ha
      rcases List.mem_cons.mp ha with e | ha2
      · rw [e]; exact hc
      · exact ih ha2
    · rw [if_neg hc] at ha
      exact absurd ha (List.not_mem_nil a)

theorem parseCacheSize_of_form (v : String) (n : Nat) (hform : specCacheForm v n)
    (hlt : n < 2 ^ 64) : parseCacheSize v = some n := by
  obtain ⟨ds, hne, hdig, hdata, hval⟩ := hform
  obtain ⟨ht, hw⟩ := takeWhile_digits ds hdig
  unfold parseCacheSize
  rw [hdata, ht, hw, if_pos ⟨hne, rfl⟩, if_pos (by rw [← hval]; exact hlt), hval]

theorem parseCacheSize_of_no_form (v : String) (hnone : ∀ n, ¬ specCacheForm v n) :
    parseCacheSize v = none := by
  rcases hps : parseCacheSize v with _ | m
  · rfl
  · exfalso
    apply hnone m
    unfold parseCacheSize at hps
    split_ifs at hps with h1 h2
    injection hps with hps
    exact ⟨v.data.takeWhile (fun c => c.isDigit), h1.1,
      fun c hc => mem_takeWhile hc,
      by
        have hkb : (' ' :: 'K' :: 'B' :: [] : List Char) = " KB".data := rfl
        rw [hkb, ← h1.2, List.takeWhile_append_dropWhile],
      hps.symm⟩

/-- Evaluation of the reader on a one-line stream: the scan is the single
loop iteration, and the final assignments override only the package and
core counts. -/
theorem getCPUInfo_single (numCPU : Nat) (hostname hypervisor : String)
    (pm : String → Option Nat) (l : String) (st1 : ScanSt)
    (h : processLine pm { si := { Threads := numCPU } } l = some st1) :
    getCPUInfo numCPU hostname hypervisor pm (some ([l], false)) =
      some { st1.si with Cpus := st1.cpuKeys.length,
                         Cores := st1.coreKeys.length } := by
  unfold getCPUInfo
  dsimp only
  simp only [scanLines]
  rw [h]
  dsimp only
  rw [if_neg (by simp)]
  split <;> rfl

/-- C9: the stored model string is the value with every run of spaces
collapsed to one space (stated through the independent right-fold form of
the collapse) and the first `"- "` replaced by `"-"`; the concrete second
part exercises multiple runs and shows only the first `"- "` is
replaced. -/
theorem getCPUInfo_model_normalisation (numCPU : Nat)
    (hostname hypervisor : String) (pm : String → Option Nat) (v : String) :
    Option.map CPU.Model (getCPUInfo numCPU hostname hypervisor pm
        (some (["model name\t: " ++ v], false)))
      = some (String.mk (replaceDashSpace (specCollapse v.data))) ∧
    Option.map CPU.Model (getCPUInfo numCPU hostname hypervisor pm
        (some (["model name\t: " ++ "a  b-  c - d"], false)))
      = some "a b-c - d" := by
  have hpipe : ∀ w : String,
      Option.map CPU.Model (getCPUInfo numCPU hostname hypervisor pm
        (some (["model name\t: " ++ w], false)))
      = some (String.mk (replaceDashSpace (collapseSpaces w.data))) := by
    intro w
    have hsp : splitTwo ("model name\t: " ++ w) = ("model name", some w) :=
      splitTwo_keyline "model name" w (by decide)
    have h : processLine pm { si := { Threads := numCPU } }
        ("model name\t: " ++ w) = some { si :=
          { Model := String.mk (replaceDashSpace (collapseSpaces w.data)),
            Threads := numCPU } } := by
      unfold processLine
      rw [hsp]
      simp
    rw [getCPUInfo_single numCPU hostname hypervisor pm _ _ h]
    rfl
  constructor
  · have h1 := hpipe v
    rw [collapse_eq_spec] at h1
    exact h1
  · rw [hpipe "a  b-  c - d", collapse_eq_spec]
    rfl

/-- C10: the cache fact is the parsed digits exactly when the value has
the form `"<digits> KB"` (and the digits fit 64 bits); any other format
leaves it at 0, as the `"30MB"` and `"1024"` examples show. -/
theorem getCPUInfo_cache_form (numCPU : Nat)
    (hostname hypervisor : String) (pm : String → Option Nat) (v : String) :
    (∀ n, specCacheForm v n → n < 2 ^ 64 →
      Option.map CPU.Cache (getCPUInfo numCPU hostname hypervisor pm
        (some (["cache size\t: " ++ v], false))) = some n) ∧
    ((∀ n, ¬ specCacheForm v n) →
      Option.map CPU.Cache (getCPUInfo numCPU hostname hypervisor pm
        (some (["cache size\t: " ++ v], false))) = some 0) ∧
    Option.map CPU.Cache (getCPUInfo numCPU hostname hypervisor pm
        (some (["cache size\t: " ++ "30MB"], false))) = some 0 ∧
    Option.map CPU.Cache (getCPUInfo numCPU hostname hypervisor pm
        (some (["cache size\t: " ++ "1024"], false))) = some 0 := by
  have hpipe : ∀ w : String,
      Option.map CPU.Cache (getCPUInfo numCPU hostname hypervisor pm
        (some (["cache size\t: " ++ w], false)))
      = some (match parseCacheSize w with | some n => n | none => 0) := by
    intro w
    have hsp : splitTwo ("cache size\t: " ++ w) = ("cache size", some w) :=
      splitTwo_keyline "cache size" w (by decide)
    rcases hpc : parseCacheSize w with _ | n
    · have h : processLine pm { si := { Threads := numCPU } }
          ("cache size\t: " ++ w) = some { si := { Threads := numCPU } } := by
        unfold processLine
        rw [hsp]
        simp [hpc]
      rw [getCPUInfo_single numCPU hostname hypervisor pm _ _ h]
      rfl
    · have h : processLine pm { si := { Threads := numCPU } }
          ("cache size\t: " ++ w) = some { si :=
            { Cache := n, Threads := numCPU } } := by
        unfold processLine
        rw [hsp]
        simp [hpc]
      rw [getCPUInfo_single numCPU hostname hypervisor pm _ _ h]
      rfl
  refine ⟨?_, ?_, ?_, ?_⟩
  · intro n hform hlt
    rw [hpipe v, parseCacheSize_of_form v n hform hlt]
  · intro hnone
    rw [hpipe v, parseCacheSize_of_no_form v hnone]
  · rw [hpipe "30MB"]; rfl
  · rw [hpipe "1024"]; rfl

/-- Witness for the C10 theorem at the well-formed value `"512 KB"`. -/
theorem getCPUInfo_cache_form_witness :
    Option.map CPU.Cache (getCPUInfo 4 "host" "" (fun _ => none)
      (some (["cache size\t: " ++ "512 KB"], false))) = some 512 :=
  (getCPUInfo_cache_form 4 "host" "" (fun _ => none) "512 KB").1 512
    ⟨['5', '1', '2'], by decide, by decide, by decide, by decide⟩
    (by norm_num)

end Sysinfo
